import Mathlib

set_option maxHeartbeats 4000000
set_option maxRecDepth 20000

attribute [local semireducible] Rat.mul Rat.inv Rat.add Rat.sub

/- Verification development for the repository's two Python sources:
   the PDF chunking routine (extract_chunks and its helpers, first source file)
   and the docx field-code preprocessor (preprocess_field_codes and
   realign_field_codes in templatepreproc.py).  Python floats are modelled as
   rationals, Python strings as Lean strings (run texts as character lists for
   the preprocessor), and Python exceptions as Except. -/

/-- Whitespace test for one character, modelling the character class matched by
the regular expression class backslash-s and stripped by Python str.strip. -/
def isWsChar (c : Char) : Bool := c.isWhitespace

/-- Python str.strip: remove leading and trailing whitespace.  Implemented over
the character list so that it evaluates by reduction (the byte-position based
String.trim of the core library does not). -/
def pyStrip (s : String) : String :=
  String.mk (((s.data.dropWhile isWsChar).reverse.dropWhile isWsChar).reverse)

/-- Python str.lower, character by character. -/
def pyLower (s : String) : String := String.mk (s.data.map Char.toLower)

/-- Models re.sub replacing each maximal run of whitespace by a single space. -/
def collapseWsL : List Char → List Char :=
  List.foldr
    (fun c acc =>
      if isWsChar c then (if acc.head? = some ' ' then acc else ' ' :: acc)
      else c :: acc) []

/-- Models re.sub of whitespace runs followed by str.strip, the normalisation
applied to both text extractions in the heading cross-check (line 208). -/
def wsNormalize (s : String) : String := pyStrip (String.mk (collapseWsL s.data))

/-- List-level test that the second list starts with the first. -/
def startsWithL : List Char → List Char → Bool
  | [], _ => true
  | _ :: _, [] => false
  | n :: ns, h :: hs => n == h && startsWithL ns hs

/-- Helper for Python substring containment over character lists. -/
def containsSubL (needle : List Char) : List Char → Bool
  | [] => needle.isEmpty
  | h :: hs => startsWithL needle (h :: hs) || containsSubL needle hs

/-- Python substring containment: needle in haystack. -/
def containsSub (needle hay : String) : Bool := containsSubL needle.data hay.data

/-- One glyph leaf (pdfminer LTChar): font name, size and its text. -/
structure Glyph where
  fontname : String
  size : ℚ
  text : String
deriving DecidableEq

/-- Nested layout items traversed by check_and_update_font_properties: glyph
leaves, non-glyph text annotations (line-break markers), and containers. -/
inductive LTItem where
  | char (g : Glyph)
  | anno (text : String)
  | container (children : List LTItem)

/-- Accumulator of the recursive font walk.  fontsize_min and fontsize_max are
initialised in the source to float plus/minus infinity, modelled by none. -/
structure FontAcc where
  fontsizeMin : Option ℚ
  fontsizeMax : Option ℚ
  boldness : Bool
  italicness : Bool
  fontNames : List String
  elementText : String
deriving DecidableEq

/-- Initial accumulator for one element (lines 149-153); font_names is the
document-wide nonlocal list threaded through every element. -/
def initFontAcc (names : List String) : FontAcc :=
  ⟨none, none, true, true, names, ""⟩

mutual
/-- Translation of check_and_update_font_properties (lines 99-131): updates the
size range, the document font-name list, boldness (vetoed by a non-whitespace
glyph of size at least 9 whose font name lacks the substring Bold), italicness
(vetoed by a non-whitespace glyph whose lowercased name lacks italic), and
appends glyph text; a non-glyph node whose text is exactly a newline appends a
space; containers are recursed into left to right. -/
def check_and_update_font_properties (a : FontAcc) : LTItem → FontAcc
  | .char g =>
      { fontsizeMin := some (match a.fontsizeMin with | none => g.size | some m => min m g.size)
        fontsizeMax := some (match a.fontsizeMax with | none => g.size | some m => max m g.size)
        fontNames := if g.fontname ∈ a.fontNames then a.fontNames else a.fontNames ++ [g.fontname]
        boldness :=
          if ¬ containsSub "Bold" g.fontname ∧ pyStrip g.text ≠ "" ∧ g.size ≥ 9 then false
          else a.boldness
        italicness :=
          if ¬ containsSub "italic" (pyLower g.fontname) ∧ pyStrip g.text ≠ "" then false
          else a.italicness
        elementText := a.elementText ++ g.text }
  | .anno t => if t = "\n" then { a with elementText := a.elementText ++ " " } else a
  | .container cs => walkChildren a cs

/-- Left fold of the font walk over a container's children. -/
def walkChildren (a : FontAcc) : List LTItem → FontAcc
  | [] => a
  | c :: cs => walkChildren (check_and_update_font_properties a c) cs
end

/-- One page-level element: geometry, whether it is a text container exposing
get_text (its native text), and the nested structure seen by the font walk. -/
structure Element where
  x0 : ℚ
  x1 : ℚ
  y0 : ℚ
  y1 : ℚ
  hasText : Bool
  nativeText : String
  body : LTItem

/-- One parsed page from the layout source. -/
structure Page where
  width : ℚ
  height : ℚ
  elements : List Element

/-- A caller-supplied regular expression argument: Python None, a pattern
string that fails to compile, or a valid pattern whose semantics is the
function from subject strings to the optional list of capture groups of the
match (None entries are groups that did not participate). -/
inductive ReArg where
  | null
  | malformed (src : String)
  | valid (src : String) (fn : String → Option (List (Option String)))

/-- Python truthiness of the pattern argument: None and the empty pattern
string are falsy, any other string is truthy. -/
def ReArg.truthy : ReArg → Bool
  | .null => false
  | .malformed src => src != ""
  | .valid src _ => src != ""

/-- Python exceptions reachable in extract_chunks: re.match or re.search on a
None pattern raises TypeError; on a malformed pattern they raise re.error. -/
inductive PyErr where
  | typeError
  | reError
deriving DecidableEq

/-- One emitted chunk (line 191 and parallels): accumulated text, the heading
label, the page number detected so far (None possible), and the embeddings
placeholder which is always the empty string at emission time. -/
structure Chunk where
  text : String
  heading : String
  page : Option String
  embeddings : String
deriving DecidableEq

/-- The mutable segmentation state of the per-element loop (lines 65-71). -/
structure SegState where
  chunks : List Chunk
  currentHeading : String
  prevConsecHeading : String
  pagenum : Option String
  textBuffer : String
  fontNames : List String
deriving DecidableEq

/-- State at the start of the segmentation pass. -/
def initSegState : SegState := ⟨[], "", "", none, "", []⟩

/-- The chunk appended at each flush site: current buffer, current heading,
current page number and the empty embeddings placeholder. -/
def mkChunk (st : SegState) : Chunk :=
  ⟨st.textBuffer, st.currentHeading, st.pagenum, ""⟩

/-- Bin edges np.linspace(0, 1, bucket_count + 1) with bucket_count = 901. -/
def binEdges : List ℚ := (List.range 902).map (fun j => (j : ℚ) / 901)

/-- Per-page context of the element loop plus the alignment profile computed by
the statistics pass. -/
structure PageCtx where
  pageWidth : ℚ
  headerHeight : ℚ
  footerHeight : ℚ
  centersNearMidIndices : List ℤ

/-- Models np.digitize(pos, bin_edges) for the ascending edge list with the
default right=False: the number of edges less than or equal to pos. -/
def digitizeCount (pos : ℚ) : ℤ :=
  ((binEdges.countP (fun e => decide (e ≤ pos))) : ℤ)

/-- linelength_limit = 0.6 (line 22). -/
def linelength_limit : ℚ := 3 / 5

/-- Translation of alignedcenter (lines 77-90): the element's normalised center
must fall in one of the retained heading bins and the element must be narrower
than linelength_limit times the page width. -/
def alignedcenter (e : Element) (pctx : PageCtx) : Bool :=
  let elementposNormalized := (e.x1 + e.x0) / 2 / pctx.pageWidth
  let binIndex : ℤ := digitizeCount elementposNormalized - 1
  pctx.centersNearMidIndices.contains binIndex
    && decide ((e.x1 - e.x0) < pctx.pageWidth * linelength_limit)

/-- fontsize_min > 13 where fontsize_min was initialised to float +infinity
(none); with no glyph seen the comparison is true. -/
def fontsizeMinGt13 : Option ℚ → Bool
  | none => true
  | some m => decide (m > 13)

/-- fontsize_max >= 8.4 where fontsize_max was initialised to float -infinity
(none); with no glyph seen the comparison is false. -/
def fontsizeMaxGe84 : Option ℚ → Bool
  | none => false
  | some m => decide (m ≥ 42 / 5)

/-- Python str.endswith((' ', '\n')) from line 182. -/
def endsWithSpaceOrNl (s : String) : Bool :=
  match s.data.getLast? with
  | some c => c == ' ' || c == '\n'
  | none => false

/-- Lines 182-184: append one space when the reconstructed text does not
already end in a space or newline. -/
def normalizeTrailing (s : String) : String :=
  if endsWithSpaceOrNl s then s else s ++ " "

/-- Translation of the heading condition (lines 198-211), in source order:
stripped reconstructed text truthy, one of the four font or alignment clauses,
whitespace-normalised equality of the two text extractions, and the strict
length bounds 6 and 90. -/
def looksLikeHeading (pctx : PageCtx) (acc : FontAcc)
    (elementText elementLevelText : String) (e : Element) : Bool :=
  (pyStrip elementText != "")
    && (fontsizeMinGt13 acc.fontsizeMin
        || (acc.boldness && !acc.italicness)
        || (acc.italicness && !acc.boldness)
        || alignedcenter e pctx)
    && (wsNormalize elementLevelText == wsNormalize elementText)
    && decide (elementText.length > 6)
    && decide (elementText.length < 90)

/-- Translation of lines 173-231 for one element that was not discarded as a
header or footer: run the font walk (which always updates the document-wide
font-name list), skip the element if it yields no text or only small print,
normalise the trailing whitespace, then take the paragraph-marker, heading or
body branch with their respective flush thresholds 1400, 500 and 5000, each
checked before the element text is appended. -/
def segmentStep (pctx : PageCtx) (isParMarker : Bool) (st : SegState) (e : Element) : SegState :=
  let acc := check_and_update_font_properties (initFontAcc st.fontNames) e.body
  let st0 := { st with fontNames := acc.fontNames }
  if acc.elementText != "" && fontsizeMaxGe84 acc.fontsizeMax then
    let elementText := normalizeTrailing acc.elementText
    if isParMarker then
      if st0.textBuffer.length > 1400 then
        { st0 with chunks := st0.chunks ++ [mkChunk st0], textBuffer := elementText }
      else
        { st0 with textBuffer := st0.textBuffer ++ elementText }
    else
      if looksLikeHeading pctx acc elementText e.nativeText e then
        let st1 :=
          if st0.textBuffer.length > 500 then
            { st0 with chunks := st0.chunks ++ [mkChunk st0], textBuffer := "" }
          else st0
        { st1 with
            currentHeading := st0.prevConsecHeading ++ elementText,
            prevConsecHeading := elementText,
            textBuffer := st1.textBuffer ++ elementText }
      else
        let st1 := { st0 with prevConsecHeading := "" }
        let st2 :=
          if st1.textBuffer.length > 5000 then
            { st1 with chunks := st1.chunks ++ [mkChunk st1], textBuffer := "" }
          else st1
        { st2 with textBuffer := st2.textBuffer ++ elementText }
  else st0

/-- Python truthiness of one capture group: participating and non-empty. -/
def optTruthy : Option String → Bool
  | none => false
  | some s => s != ""

/-- Translation of the page-number extraction (lines 161-166): pgnum.groups()
is the list of capture groups of the match, group(i) its entry i - 1; a
successful match stores group 1 if truthy, else group 2 if the pattern has at
least two groups (possibly None). -/
def footerStep (st : SegState) (res : Option (List (Option String))) : SegState :=
  match res with
  | none => st
  | some gs =>
      if decide (gs.length ≥ 1) && optTruthy (gs.getD 0 none) then
        { st with pagenum := gs.getD 0 none }
      else if decide (gs.length > 1) then
        { st with pagenum := gs.getD 1 none }
      else st

/-- Translation of one iteration of the per-element loop (lines 142-231) with
Python exceptions in Except: elements above the header height are skipped; a
text element in the footer band runs the page-number extraction if the footer
pattern is truthy (re.search raises re.error on a malformed pattern) and is
then discarded; any other text element has its stripped native text matched
against the unguarded paragraph pattern (re.match raises TypeError on None and
re.error on a malformed pattern), the marker being truthy only when the native
text is non-empty; non-text elements go straight to the segmentation step. -/
def processElementE (footer_pattern paragraphpattern : ReArg) (pctx : PageCtx)
    (st : SegState) (e : Element) : Except PyErr SegState :=
  if decide (e.y0 > pctx.headerHeight) then .ok st
  else if e.hasText && decide (e.y1 < pctx.footerHeight) then
    (if footer_pattern.truthy then
      match footer_pattern with
      | .null => .error .typeError
      | .malformed _ => .error .reError
      | .valid _ f => .ok (footerStep st (f e.nativeText))
    else .ok st)
  else if e.hasText then
    match paragraphpattern with
    | .null => .error .typeError
    | .malformed _ => .error .reError
    | .valid _ f =>
        .ok (segmentStep pctx ((f (pyStrip e.nativeText)).isSome && e.nativeText != "") st e)
  else .ok (segmentStep pctx false st e)

/-- The element loop of one page. -/
def processElements (fp pp : ReArg) (pctx : PageCtx) :
    SegState → List Element → Except PyErr SegState
  | st, [] => .ok st
  | st, e :: es =>
      match processElementE fp pp pctx st e with
      | .error er => .error er
      | .ok st' => processElements fp pp pctx st' es

/-- Per-page margins (lines 138-139): a falsy (zero) margin argument selects
the defaults of 92 per cent and 8 per cent of the page height. -/
def pageCtxOf (topMargin bottomMargin : ℚ) (indices : List ℤ) (p : Page) : PageCtx :=
  { pageWidth := p.width
    headerHeight := if topMargin = 0 then p.height * (92 / 100) else topMargin
    footerHeight := if bottomMargin = 0 then p.height * (8 / 100) else bottomMargin
    centersNearMidIndices := indices }

/-- The page loop of the segmentation pass. -/
def processPages (fp pp : ReArg) (tm bm : ℚ) (indices : List ℤ) :
    SegState → List Page → Except PyErr SegState
  | st, [] => .ok st
  | st, p :: ps =>
      match processElements fp pp (pageCtxOf tm bm indices p) st p.elements with
      | .error er => .error er
      | .ok st' => processPages fp pp tm bm indices st' ps

/-- Lines 28-39: unnormalised horizontal centers of all text containers whose
width is below half of their own page's width, collected document wide. -/
def center_positions (pages : List Page) : List ℚ :=
  (pages.map (fun pg => pg.elements.filterMap (fun e =>
    if e.hasText && decide ((e.x1 - e.x0) < pg.width / 2) then some ((e.x0 + e.x1) / 2)
    else none))).flatten

/-- The value of the loop variable page_width after the statistics loop: the
width of the last page.  The default is never used by the source because the
list comprehension of line 42 only reads page_width when at least one center
was collected, which requires at least one page. -/
def lastPageWidth (pages : List Page) : ℚ :=
  ((pages.map Page.width).getLast?).getD 1

/-- Line 42 of the source: every collected center is divided by the value
page_width holds after the loop, that is by the width of the last page. -/
def center_positions_normalized (pages : List Page) : List ℚ :=
  (center_positions pages).map (fun pos => pos / lastPageWidth pages)

/-- Specification-side definition for claim C3, following the spec words: each
center is normalised by the width of the page the container lies on. -/
def centerPositionsNormalizedPerPage (pages : List Page) : List ℚ :=
  (pages.map (fun pg => pg.elements.filterMap (fun e =>
    if e.hasText && decide ((e.x1 - e.x0) < pg.width / 2) then some ((e.x0 + e.x1) / 2 / pg.width)
    else none))).flatten

/-- Models np.histogram over the 901 equal bins of [0, 1]: values on an inner
edge belong to the bucket on their right, the last bucket is closed at 1, and
values outside [0, 1] are not counted. -/
def histogramCounts (data : List ℚ) : List Nat :=
  (List.range 901).map (fun i =>
    data.countP (fun x => decide ((i : ℚ) / 901 ≤ x)
      && (decide (x < ((i : ℚ) + 1) / 901) || (decide (i = 900) && decide (x = (1 : ℚ))))))

/-- Lexicographic order on the (index, count) pairs produced by List.enum,
comparing counts first and original indices second.  Sorting by this order is
the stable ascending argsort.  The source calls np.argsort with its default
unstable quicksort whose tie order is unspecified; the stable order is the
canonical deterministic model of argsort (numpy kind stable). -/
def argsortLe (p q : Nat × Nat) : Prop := p.2 < q.2 ∨ (p.2 = q.2 ∧ p.1 ≤ q.1)

instance : DecidableRel argsortLe := fun p q => by unfold argsortLe; infer_instance

/-- Indices of the list sorted by ascending value, ties by ascending index. -/
def argsortStable (l : List Nat) : List Nat :=
  (List.insertionSort argsortLe l.enum).map Prod.fst

/-- Line 48: np.argsort(histogram)[-8:], the last eight entries of the ascending
argsort, that is the eight buckets with the highest counts. -/
def top_X_bins (hist : List Nat) : List Nat :=
  (argsortStable hist).drop (hist.length - 8)

/-- Line 49: bin centers of the retained buckets. -/
def top_X_centers (hist : List Nat) : List ℚ :=
  (top_X_bins hist).map (fun i => (binEdges.getD i 0 + binEdges.getD (i + 1) 0) / 2)

/-- Line 52: retained centers within 0.15 of 0.55. -/
def centers_near_mid (hist : List Nat) : List ℚ :=
  (top_X_centers hist).filter (fun c => decide (|c - 11 / 20| < 3 / 20))

/-- Models np.searchsorted(bin_edges, center) with the default side left: the
number of edges strictly below the value. -/
def searchsortedLeft (c : ℚ) : ℤ :=
  ((binEdges.countP (fun e => decide (e < c))) : ℤ)

/-- Line 56: bucket indices of the retained centers. -/
def centers_near_mid_indices (hist : List Nat) : List ℤ :=
  (centers_near_mid hist).map (fun c => searchsortedLeft c - 1)

/-- The alignment profile of one document: the statistics pass end to end. -/
def docIndices (pages : List Page) : List ℤ :=
  centers_near_mid_indices (histogramCounts (center_positions_normalized pages))

/-- Translation of extract_chunks: the statistics pass, the segmentation pass
and the final unconditional flush of line 240.  The pdf_path argument is
replaced by the parsed page list; task_id and status reporting are an external
side channel and are omitted. -/
def extract_chunks (footer_pattern paragraphpattern : ReArg)
    (top_margin bottom_margin : ℚ) (pages : List Page) :
    Except PyErr (List Chunk × List String) :=
  match processPages footer_pattern paragraphpattern top_margin bottom_margin
      (docIndices pages) initSegState pages with
  | .error er => .error er
  | .ok st => .ok (st.chunks ++ [mkChunk st], st.fontNames)

/-- Splits a character list at the first occurrence of the two-character mark
c1 c2, returning the part before the mark and the part after it; none when the
mark does not occur.  Models Python str.split(mark, 1) together with the
substring test mark in text. -/
def splitOnce2 (c1 c2 : Char) : List Char → Option (List Char × List Char)
  | [] => none
  | [_] => none
  | a :: b :: rest =>
      if a = c1 ∧ b = c2 then some ([], rest)
      else (splitOnce2 c1 c2 (b :: rest)).map (fun pr => (a :: pr.1, pr.2))

/-- Python mark in text for a two-character mark. -/
def containsMark (c1 c2 : Char) (l : List Char) : Bool :=
  (splitOnce2 c1 c2 l).isSome

/-- Translation of the loop body of realign_field_codes over the runs after the
first one, carrying the previous run: a run that contains the opening mark but
does not start with it has everything before the mark moved to the end of the
previous run. -/
def realignAux : List Char → List (List Char) → List (List Char)
  | prev, [] => [prev]
  | prev, r :: rs =>
      if containsMark '<' '<' r ∧ r.take 2 ≠ ['<', '<'] then
        match splitOnce2 '<' '<' r with
        | some (p0, p1) => (prev ++ p0) :: realignAux ('<' :: '<' :: p1) rs
        | none => prev :: realignAux r rs
      else prev :: realignAux r rs

/-- Translation of realign_field_codes for one paragraph, whose runs are
character lists; a paragraph without runs is returned unchanged. -/
def realign_field_codes : List (List Char) → List (List Char)
  | [] => []
  | r :: rs => realignAux r rs

/-- Translation of the inner consolidation of preprocess_field_codes: starting
from the run holding the opening mark (opener), consume subsequent runs; a run
without the closing mark has all its text appended to the opener and is
cleared; the run with the closing mark contributes its part before the mark
plus the restored mark to the opener and keeps the remainder.  Returns the
final opener text, the cleared runs, the remainder of the closing run and the
untouched tail; none models the IndexError raised when the runs are exhausted
before a closing mark is found. -/
def preprocConsume (opener : List Char) :
    List (List Char) → Option (List Char × List (List Char) × List Char × List (List Char))
  | [] => none
  | r :: rs =>
      match splitOnce2 '>' '>' r with
      | some (p0, p1) => some (opener ++ p0 ++ ['>', '>'], [], p1, rs)
      | none =>
          (preprocConsume (opener ++ r) rs).map
            (fun out => (out.1, ([] : List Char) :: out.2.1, out.2.2.1, out.2.2.2))

/-- Length bookkeeping of the consolidation: cleared runs plus the closing run
plus the untouched tail account for every consumed run. -/
theorem preprocConsume_length (opener : List Char) :
    ∀ (rest : List (List Char)) out, preprocConsume opener rest = some out →
      out.2.1.length + 1 + out.2.2.2.length = rest.length := by
  intro rest
  induction rest generalizing opener with
  | nil => intro out h; simp [preprocConsume] at h
  | cons r rs ih =>
      intro out h
      simp only [preprocConsume] at h
      cases hs : splitOnce2 '>' '>' r with
      | some pr =>
          rw [hs] at h
          cases h
          simp only [List.length_nil, List.length_cons]
          omega
      | none =>
          rw [hs] at h
          cases hc : preprocConsume (opener ++ r) rs with
          | none => rw [hc] at h; simp at h
          | some out' =>
              rw [hc] at h
              cases h
              have := ih (opener ++ r) out' hc
              simp only [List.length_cons]
              omega

/-- Translation of the outer while loop of preprocess_field_codes for one
paragraph: the last run is never examined as an opener; a run containing the
opening mark but not the closing one triggers the consolidation, after which
the loop continues at the run that held the closing mark; none models the
IndexError raised by an unclosed opening mark. -/
def preprocess_field_codes : List (List Char) → Option (List (List Char))
  | [] => some []
  | [r] => some [r]
  | r :: r2 :: rest =>
      if containsMark '<' '<' r ∧ ¬ containsMark '>' '>' r then
        match hc : preprocConsume r (r2 :: rest) with
        | none => none
        | some out =>
            (preprocess_field_codes (out.2.2.1 :: out.2.2.2)).map
              (fun done => out.1 :: (out.2.1 ++ done))
      else (preprocess_field_codes (r2 :: rest)).map (fun done => r :: done)
termination_by l => l.length
decreasing_by
  · have := preprocConsume_length r (r2 :: rest) out hc
    simp only [List.length_cons] at *
    omega
  · simp

/-- Projection of the font accumulator onto the fields that do not interact
with the document-wide font-name list. -/
def coreOf (a : FontAcc) : Option ℚ × Option ℚ × Bool × Bool × String :=
  (a.fontsizeMin, a.fontsizeMax, a.boldness, a.italicness, a.elementText)

mutual
/-- The size, boldness, italicness and text results of the font walk do not
depend on the font-name list carried in the accumulator. -/
theorem coreOf_walk (t : LTItem) : ∀ (a b : FontAcc), coreOf a = coreOf b →
    coreOf (check_and_update_font_properties a t) = coreOf (check_and_update_font_properties b t) := by
  cases t with
  | char g =>
      intro a b h
      cases a; cases b
      simp only [coreOf, Prod.mk.injEq] at h
      obtain ⟨h1, h2, h3, h4, h5⟩ := h
      subst h1; subst h2; subst h3; subst h4; subst h5
      simp [check_and_update_font_properties, coreOf]
  | anno s =>
      intro a b h
      cases a; cases b
      simp only [coreOf, Prod.mk.injEq] at h
      obtain ⟨h1, h2, h3, h4, h5⟩ := h
      subst h1; subst h2; subst h3; subst h4; subst h5
      simp only [check_and_update_font_properties]
      split <;> simp [coreOf]
  | container cs =>
      intro a b h
      simpa only [check_and_update_font_properties] using coreOf_walkChildren cs a b h

/-- Child-list version of coreOf_walk. -/
theorem coreOf_walkChildren (cs : List LTItem) : ∀ (a b : FontAcc), coreOf a = coreOf b →
    coreOf (walkChildren a cs) = coreOf (walkChildren b cs) := by
  cases cs with
  | nil => intro a b h; simpa only [walkChildren] using h
  | cons c cs' =>
      intro a b h
      simp only [walkChildren]
      exact coreOf_walkChildren cs' _ _ (coreOf_walk c _ _ h)
end

/-- Specialisation: starting the walk from the per-element initial accumulator,
the core results agree for every initial font-name list. -/
theorem coreOf_walk_init (names : List String) (t : LTItem) :
    coreOf (check_and_update_font_properties (initFontAcc names) t) =
      coreOf (check_and_update_font_properties (initFontAcc []) t) :=
  coreOf_walk t _ _ (by simp [coreOf, initFontAcc])

/-- Canonical reconstructed text of one element (independent of the font-name
list by coreOf_walk_init). -/
def elemText (e : Element) : String :=
  (check_and_update_font_properties (initFontAcc []) e.body).elementText

/-- Canonical normalised element text: the reconstructed text after the
trailing-space normalisation of line 182. -/
def elemNormText (e : Element) : String := normalizeTrailing (elemText e)

theorem elementText_walk_init (names : List String) (e : Element) :
    (check_and_update_font_properties (initFontAcc names) e.body).elementText = elemText e :=
  congrArg (fun p => p.2.2.2.2) (coreOf_walk_init names e.body)

mutual
/-- Specification-side predicate for claim C7: the item contains a glyph whose
text is non-whitespace, whose size is at least 9 and whose font name lacks the
substring Bold. -/
def boldVetoItem : LTItem → Bool
  | .char g => !containsSub "Bold" g.fontname && pyStrip g.text != "" && decide (g.size ≥ 9)
  | .anno _ => false
  | .container cs => boldVetoList cs

/-- List version of boldVetoItem. -/
def boldVetoList : List LTItem → Bool
  | [] => false
  | c :: cs => boldVetoItem c || boldVetoList cs
end

mutual
/-- Boldness after walking one item: the incoming boldness unless the item
contains a vetoing glyph. -/
theorem boldness_walk (t : LTItem) : ∀ a : FontAcc,
    (check_and_update_font_properties a t).boldness = (a.boldness && !boldVetoItem t) := by
  cases t with
  | char g =>
      intro a
      simp only [check_and_update_font_properties, boldVetoItem]
      cases hc : containsSub "Bold" g.fontname <;>
        by_cases ht : pyStrip g.text = "" <;>
          by_cases hs : g.size ≥ 9 <;>
            simp [hc, ht, hs]
  | anno s =>
      intro a
      simp only [check_and_update_font_properties, boldVetoItem]
      split <;> simp
  | container cs =>
      intro a
      simpa only [check_and_update_font_properties, boldVetoItem] using boldness_walkChildren cs a

/-- List version of boldness_walk. -/
theorem boldness_walkChildren (cs : List LTItem) : ∀ a : FontAcc,
    (walkChildren a cs).boldness = (a.boldness && !boldVetoList cs) := by
  cases cs with
  | nil => intro a; simp [walkChildren, boldVetoList]
  | cons c cs' =>
      intro a
      simp only [walkChildren, boldVetoList]
      rw [boldness_walkChildren cs', boldness_walk c]
      cases a.boldness <;> cases boldVetoItem c <;> simp
end

/-- C7: during font aggregation of one element, boldness starts true (the
per-element initial accumulator) and is false after the walk exactly when some
glyph with non-whitespace text, size at least 9 and no Bold in its font name
was encountered; whitespace-only or sub-size-9 glyphs never clear it, and once
false it never returns to true (the incoming boldness is an upper bound). -/
theorem claim_C7_theorem : ∀ t : LTItem,
    (∀ a : FontAcc, (check_and_update_font_properties a t).boldness = (a.boldness && !boldVetoItem t))
    ∧ ∀ names : List String,
        (check_and_update_font_properties (initFontAcc names) t).boldness = !boldVetoItem t := by
  intro t
  refine ⟨boldness_walk t, fun names => ?_⟩
  rw [boldness_walk t]
  simp [initFontAcc]

deriving instance DecidableEq for Except

/-- Helper for concrete documents: one run of glyphs with a common font name
and size, one glyph per character. -/
def glyphRun (fname : String) (sz : ℚ) (s : String) : LTItem :=
  .container (s.data.map (fun c => .char ⟨fname, sz, String.mk [c]⟩))

/-- A trivially matching-nothing but valid paragraph pattern. -/
def ppTrivial : ReArg := .valid "X" (fun _ => none)

/-- Concrete body element used by the counterexample documents: its text is
seven spaces, so the heading condition fails already on its first conjunct
(the stripped text is empty) while the element still passes the small-print
filter (non-empty text of size 10). -/
def bodyElemA : Element := ⟨10, 80, 50, 55, true, "       ", glyphRun "Regular" 10 "       "⟩

/-- Concrete heading-like element: all glyphs in a Bold font, not italic. -/
def headElemA : Element := ⟨10, 80, 50, 55, true, "Heading A", glyphRun "TimesBold" 10 "Heading A"⟩

/-- Second concrete heading-like element with different text. -/
def headElemB : Element := ⟨10, 80, 50, 55, true, "Part Two", glyphRun "TimesBold" 10 "Part Two"⟩

/-- One-page document: a body element followed by a heading element. -/
def pageA : Page := ⟨100, 100, [bodyElemA, headElemA]⟩

/-- C1 counterexample: in the document pageA the body element is processed
first, while current_heading is empty, and its whitespace text becomes the
first content of the buffer; the heading element then updates current_heading
without flushing (the buffer holds 8 characters, not more than 500), and the
single emitted chunk carries heading "Heading A " although the heading in
effect when its first content was appended was the empty string.  This refutes
the claim that a chunk's heading is the one in effect at first append. -/
theorem claim_C1_counterexample :
    processElementE .null ppTrivial (pageCtxOf 0 0 (docIndices [pageA]) pageA)
        initSegState bodyElemA
      = .ok ⟨[], "", "", none, "       ", ["Regular"]⟩
    ∧ extract_chunks .null ppTrivial 0 0 [pageA]
      = .ok ([⟨"       Heading A ", "Heading A ", none, ""⟩], ["Regular", "TimesBold"])
    ∧ ("Heading A " : String) ≠ "" := by
  refine ⟨by decide, by decide, by decide⟩

/-- C3 documents: a first page of width 100 with one narrow text container
centered at 50, and a second page of width 200 with no containers. -/
def pageNarrow : Page := ⟨100, 100, [⟨45, 55, 50, 55, true, "x", .container []⟩]⟩

/-- Second page for the C3 document, wider and empty. -/
def pageWide : Page := ⟨200, 100, []⟩

/-- C3: the source normalises every collected center by the width of the LAST
page (the loop variable page_width read after the loop, line 42), not by the
width of the page the container lies on: the center 50 collected on the
100-wide first page is divided by 200, giving 1/4, while normalisation by its
own page's width gives 1/2. -/
theorem claim_C3_theorem :
    center_positions_normalized [pageNarrow, pageWide] = [1/4]
    ∧ centerPositionsNormalizedPerPage [pageNarrow, pageWide] = [1/2]
    ∧ ((1/4 : ℚ) ≠ 1/2) := by
  refine ⟨by decide, by decide, by decide⟩

/-- Specification-side heading predicate for claim C4, with the conjuncts in
the claim's order: strict length bounds 6 and 90, whitespace-normalised
equality of the two text extractions, and at least one of the four clauses. -/
def headingPredClaim (pctx : PageCtx) (acc : FontAcc)
    (elementText elementLevelText : String) (e : Element) : Bool :=
  decide (elementText.length > 6) && decide (elementText.length < 90)
    && (wsNormalize elementLevelText == wsNormalize elementText)
    && (fontsizeMinGt13 acc.fontsizeMin
        || (acc.boldness && !acc.italicness)
        || (acc.italicness && !acc.boldness)
        || alignedcenter e pctx)

/-- Element of seven space glyphs of size 14: it survives the small-print
filter (non-empty text, maximum size at least 8.4) and is not a marker, its
minimum glyph size exceeds 13, its normalised reconstructed and native texts
agree (both empty) and its length is 7, yet the source's heading condition
rejects it because the stripped reconstructed text is empty. -/
def wsHeadElem : Element := ⟨10, 80, 50, 55, true, "       ", glyphRun "BigFont" 14 "       "⟩

/-- C4 counterexample: for the all-whitespace element wsHeadElem, which
survives the header, footer and small-print filters, the claim's predicate
(length in bounds, normalised texts equal, minimum size above 13) holds but
the source's heading condition is false: the code additionally requires the
stripped reconstructed text to be non-empty, so the claimed equivalence fails. -/
theorem claim_C4_counterexample :
    ((check_and_update_font_properties (initFontAcc []) wsHeadElem.body).elementText != ""
      && fontsizeMaxGe84 (check_and_update_font_properties (initFontAcc []) wsHeadElem.body).fontsizeMax) = true
    ∧ looksLikeHeading ⟨100, 92, 8, []⟩ (check_and_update_font_properties (initFontAcc []) wsHeadElem.body)
        (normalizeTrailing (check_and_update_font_properties (initFontAcc []) wsHeadElem.body).elementText)
        wsHeadElem.nativeText wsHeadElem = false
    ∧ headingPredClaim ⟨100, 92, 8, []⟩ (check_and_update_font_properties (initFontAcc []) wsHeadElem.body)
        (normalizeTrailing (check_and_update_font_properties (initFontAcc []) wsHeadElem.body).elementText)
        wsHeadElem.nativeText wsHeadElem = true := by
  refine ⟨by decide, by decide, by decide⟩

/-- C4 amended: the source's heading condition equals the claim's predicate
strengthened by one more conjunct, that the stripped reconstructed text is
non-empty.  In particular a bold-and-italic element (both flags true after
aggregation) still satisfies neither bold-only nor italic-only clause and can
pass only through the size or alignment clause. -/
theorem claim_C4_amended (pctx : PageCtx) (acc : FontAcc)
    (elementText elementLevelText : String) (e : Element) :
    looksLikeHeading pctx acc elementText elementLevelText e
      = ((pyStrip elementText != "")
          && headingPredClaim pctx acc elementText elementLevelText e) := by
  simp only [looksLikeHeading, headingPredClaim]
  generalize (pyStrip elementText != "") = A
  generalize (fontsizeMinGt13 acc.fontsizeMin || (acc.boldness && !acc.italicness)
      || (acc.italicness && !acc.boldness) || alignedcenter e pctx) = B
  generalize (wsNormalize elementLevelText == wsNormalize elementText) = C
  generalize (decide (elementText.length > 6)) = D
  generalize (decide (elementText.length < 90)) = E
  cases A <;> cases B <;> cases C <;> cases D <;> cases E <;> rfl

/-- Footer-band element: y1 = 5 is below the default footer height of 8. -/
def footerElem : Element := ⟨10, 80, 2, 5, true, "7", glyphRun "Regular" 10 "7"⟩

/-- One-page document whose only element lies in the footer band. -/
def pageFooter : Page := ⟨100, 100, [footerElem]⟩

/-- C2 counterexample: a None (missing) paragraph pattern makes extract_chunks
raise TypeError at the first surviving text element (the unguarded re.match of
line 169), and a malformed footer pattern makes it raise re.error at the first
footer-band text element (line 161); neither is skipped as a disabled
feature. -/
theorem claim_C2_counterexample :
    extract_chunks .null .null 0 0 [pageA] = .error .typeError
    ∧ extract_chunks (.malformed "(") ppTrivial 0 0 [pageFooter] = .error .reError := by
  refine ⟨by decide, by decide⟩

/-- With a missing or valid footer pattern and a valid paragraph pattern, one
element step never raises. -/
theorem processElementE_ok (fp : ReArg) (s : String)
    (f : String → Option (List (Option String))) (pctx : PageCtx) (st : SegState) (e : Element)
    (hfp : fp = ReArg.null ∨ ∃ s2 f2, fp = ReArg.valid s2 f2) :
    ∃ st', processElementE fp (.valid s f) pctx st e = .ok st' := by
  rcases hfp with rfl | ⟨s2, f2, rfl⟩ <;>
    · simp only [processElementE]
      split
      · exact ⟨_, rfl⟩
      · split
        · split
          · next h => first
              | exact ⟨_, rfl⟩
              | exact absurd h (by simp [ReArg.truthy])
          · exact ⟨_, rfl⟩
        · split
          · exact ⟨_, rfl⟩
          · exact ⟨_, rfl⟩

/-- With a missing or valid footer pattern and a valid paragraph pattern, a
page's element loop never raises. -/
theorem processElements_ok (fp : ReArg) (s : String)
    (f : String → Option (List (Option String))) (pctx : PageCtx)
    (hfp : fp = ReArg.null ∨ ∃ s2 f2, fp = ReArg.valid s2 f2) :
    ∀ (es : List Element) (st : SegState),
      ∃ st', processElements fp (.valid s f) pctx st es = .ok st' := by
  intro es
  induction es with
  | nil => intro st; exact ⟨st, rfl⟩
  | cons e es ih =>
      intro st
      obtain ⟨st1, h1⟩ := processElementE_ok fp s f pctx st e hfp
      obtain ⟨st2, h2⟩ := ih st1
      exact ⟨st2, by simp only [processElements, h1, h2]⟩

/-- With a missing or valid footer pattern and a valid paragraph pattern, the
page loop never raises. -/
theorem processPages_ok (fp : ReArg) (s : String)
    (f : String → Option (List (Option String))) (tm bm : ℚ) (indices : List ℤ)
    (hfp : fp = ReArg.null ∨ ∃ s2 f2, fp = ReArg.valid s2 f2) :
    ∀ (ps : List Page) (st : SegState),
      ∃ st', processPages fp (.valid s f) tm bm indices st ps = .ok st' := by
  intro ps
  induction ps with
  | nil => intro st; exact ⟨st, rfl⟩
  | cons p ps ih =>
      intro st
      obtain ⟨st1, h1⟩ := processElements_ok fp s f (pageCtxOf tm bm indices p) hfp p.elements st
      obtain ⟨st2, h2⟩ := ih st1
      exact ⟨st2, by simp only [processPages, h1, h2]⟩

/-- C2 amended: a missing (None) footer pattern is treated as feature disabled
and never raises, and with any valid paragraph pattern extract_chunks always
completes normally; but (per the counterexample) a malformed footer pattern or
a missing or malformed paragraph pattern raises as soon as a text element
reaches the corresponding regular-expression call. -/
theorem claim_C2_amended (fp pp : ReArg) (tm bm : ℚ) (pages : List Page)
    (hfp : fp = ReArg.null ∨ ∃ s f, fp = ReArg.valid s f)
    (hpp : ∃ s f, pp = ReArg.valid s f) :
    ∃ r, extract_chunks fp pp tm bm pages = .ok r := by
  obtain ⟨s, f, rfl⟩ := hpp
  obtain ⟨st, h⟩ := processPages_ok fp s f tm bm (docIndices pages) hfp pages initSegState
  refine ⟨(st.chunks ++ [mkChunk st], st.fontNames), ?_⟩
  simp only [extract_chunks, h]

/-- C2 witness: with footer pattern None and the valid paragraph pattern
ppTrivial the pageA document is processed without an exception. -/
theorem claim_C2_witness :
    (ReArg.null = ReArg.null ∨ ∃ s f, ReArg.null = ReArg.valid s f)
    ∧ ∃ r, extract_chunks ReArg.null ppTrivial 0 0 [pageA] = .ok r :=
  ⟨Or.inl rfl, claim_C2_amended ReArg.null ppTrivial 0 0 [pageA] (Or.inl rfl)
    ⟨"X", fun _ => none, rfl⟩⟩

/-- C10: when a footer-band text element matches a truthy footer pattern whose
first capture group is falsy (absent or empty) and whose second group exists
but did not participate, the stored page number is overwritten with None,
regardless of any previously detected page number. -/
theorem claim_C10_theorem (src : String) (f : String → Option (List (Option String)))
    (pp : ReArg) (pctx : PageCtx) (st : SegState) (e : Element) (gs : List (Option String))
    (hsrc : src ≠ "") (hT : e.hasText = true) (hHead : ¬ e.y0 > pctx.headerHeight)
    (hFoot : e.y1 < pctx.footerHeight) (hm : f e.nativeText = some gs)
    (hlen : 2 ≤ gs.length) (h1 : optTruthy (gs.getD 0 none) = false)
    (h2 : gs.getD 1 none = none) :
    processElementE (.valid src f) pp pctx st e = .ok { st with pagenum := none } := by
  have htr : (ReArg.valid src f).truthy = true := by simp [ReArg.truthy, hsrc]
  simp only [processElementE, hT, decide_eq_true_eq, if_neg hHead, Bool.true_and,
    if_pos hFoot, htr, if_pos (decide_eq_true hFoot)]
  rw [if_pos]
  · simp only [footerStep, hm, h1, Bool.and_false, Bool.false_eq_true, if_false,
      if_pos (by omega : gs.length > 1), h2]
    rw [if_pos (show decide (gs.length > 1) = true by simp only [decide_eq_true_eq]; omega)]
  · simp [hFoot]

/-- C10 witness: a concrete footer element, a pattern matching with groups
(empty string, None) and a state holding page number 41 ends with None. -/
theorem claim_C10_witness :
    processElementE (.valid "pat" (fun _ => some [some "", none])) ppTrivial
        ⟨100, 92, 8, []⟩ ⟨[], "", "", some "41", "", []⟩ footerElem
      = .ok ⟨[], "", "", none, "", []⟩ :=
  claim_C10_theorem "pat" (fun _ => some [some "", none]) ppTrivial ⟨100, 92, 8, []⟩
    ⟨[], "", "", some "41", "", []⟩ footerElem [some "", none]
    (by decide) rfl (by decide) (by decide) rfl (by decide) (by decide) (by decide)

/-- The page-number extraction never touches the chunk list. -/
theorem footerStep_chunks (st : SegState) (r : Option (List (Option String))) :
    (footerStep st r).chunks = st.chunks := by
  cases r with
  | none => rfl
  | some gs =>
      simp only [footerStep]
      split
      · rfl
      · split <;> rfl

/-- One segmentation step appends at most one chunk, and that chunk is built
from the state as it was when the element's processing began: its text is the
incoming buffer, its heading the incoming current heading and its page the
incoming page number (every flush happens before the element's own heading
update and buffer append). -/
theorem segmentStep_chunks (pctx : PageCtx) (m : Bool) (st : SegState) (e : Element) :
    (segmentStep pctx m st e).chunks = st.chunks
    ∨ (segmentStep pctx m st e).chunks = st.chunks ++ [mkChunk st] := by
  simp only [segmentStep]
  split
  · split
    · split
      · right; simp [mkChunk]
      · left; rfl
    · split
      · split
        · right; simp [mkChunk]
        · left; rfl
      · split
        · right; simp [mkChunk]
        · left; rfl
  · left; rfl

/-- C1 amended: any chunk emitted while processing one element carries the
buffer, heading and page number of the state at the start of that element's
processing, that is the values current at flush time; in particular the
heading stored in a flushed chunk is the most recently set heading, not the
heading that was in effect when the chunk's first content entered the buffer
(the counterexample shows the two can differ when a heading element arrives
while the buffer holds at most 500 characters). -/
theorem claim_C1_amended (fp pp : ReArg) (pctx : PageCtx) (st : SegState) (e : Element)
    (st' : SegState) (h : processElementE fp pp pctx st e = .ok st') :
    st'.chunks = st.chunks ∨ st'.chunks = st.chunks ++ [mkChunk st] := by
  simp only [processElementE] at h
  split at h
  · cases h; exact Or.inl rfl
  · split at h
    · split at h
      · split at h
        · exact absurd h (by simp)
        · exact absurd h (by simp)
        · cases h; exact Or.inl (footerStep_chunks st _)
      · cases h; exact Or.inl rfl
    · split at h
      · split at h
        · exact absurd h (by simp)
        · exact absurd h (by simp)
        · cases h; exact segmentStep_chunks _ _ _ _
      · cases h; exact segmentStep_chunks _ _ _ _

/-- C1 amended witness: one heading element processed from the initial state
returns normally and leaves the chunk list unchanged or extended by the chunk
of the starting state. -/
theorem claim_C1_amended_witness :
    processElementE .null ppTrivial ⟨100, 92, 8, []⟩ initSegState headElemA
      = .ok ⟨[], "Heading A ", "Heading A ", none, "Heading A ", ["TimesBold"]⟩
    ∧ ((⟨[], "Heading A ", "Heading A ", none, "Heading A ", ["TimesBold"]⟩ : SegState).chunks
          = initSegState.chunks
        ∨ (⟨[], "Heading A ", "Heading A ", none, "Heading A ", ["TimesBold"]⟩ : SegState).chunks
          = initSegState.chunks ++ [mkChunk initSegState]) :=
  ⟨by decide, claim_C1_amended .null ppTrivial ⟨100, 92, 8, []⟩ initSegState headElemA
    ⟨[], "Heading A ", "Heading A ", none, "Heading A ", ["TimesBold"]⟩ (by decide)⟩

/-- Field-wise form of coreOf_walk_init. -/
theorem walk_init_fields (names : List String) (t : LTItem) :
    (check_and_update_font_properties (initFontAcc names) t).fontsizeMin
        = (check_and_update_font_properties (initFontAcc []) t).fontsizeMin
    ∧ (check_and_update_font_properties (initFontAcc names) t).fontsizeMax
        = (check_and_update_font_properties (initFontAcc []) t).fontsizeMax
    ∧ (check_and_update_font_properties (initFontAcc names) t).boldness
        = (check_and_update_font_properties (initFontAcc []) t).boldness
    ∧ (check_and_update_font_properties (initFontAcc names) t).italicness
        = (check_and_update_font_properties (initFontAcc []) t).italicness
    ∧ (check_and_update_font_properties (initFontAcc names) t).elementText
        = (check_and_update_font_properties (initFontAcc []) t).elementText := by
  have h := coreOf_walk_init names t
  simpa only [coreOf, Prod.mk.injEq] using h

/-- The heading branch condition for one non-marker element given the incoming
font-name list: the element passes the small-print filter and the source's
heading condition holds for it. -/
def headingFires (pctx : PageCtx) (names : List String) (e : Element) : Bool :=
  let acc := check_and_update_font_properties (initFontAcc names) e.body
  (acc.elementText != "" && fontsizeMaxGe84 acc.fontsizeMax)
    && looksLikeHeading pctx acc (normalizeTrailing acc.elementText) e.nativeText e

/-- Processing one element whose heading branch fires sets current_heading to
the previous consecutive heading followed by the element's normalised text,
and records that text as the new previous consecutive heading (lines 219-220). -/
theorem segmentStep_heading (pctx : PageCtx) (st : SegState) (e : Element)
    (h : headingFires pctx st.fontNames e = true) :
    (segmentStep pctx false st e).currentHeading = st.prevConsecHeading ++ elemNormText e
    ∧ (segmentStep pctx false st e).prevConsecHeading = elemNormText e := by
  simp only [headingFires, Bool.and_eq_true] at h
  obtain ⟨h1, h2⟩ := h
  have htext := elementText_walk_init st.fontNames e
  simp only [segmentStep, h1, h2, Bool.and_self, if_true, Bool.false_eq_true, if_false,
    elemNormText, ← htext]
  exact ⟨by trivial, by trivial⟩

/-- C6 amended: after two consecutive elements whose heading branch fires,
current_heading is the concatenation of their two normalised texts with no
separator added (so every chunk flushed after the pair carries that label),
and after a third consecutive heading element it is the concatenation of the
second and third texts only; however (per the counterexample) a chunk flushed
while the second element itself is being processed still carries the first
element's text alone. -/
theorem claim_C6_amended (pctx : PageCtx) (st : SegState) (e1 e2 e3 : Element)
    (hprev : st.prevConsecHeading = "")
    (h1 : headingFires pctx st.fontNames e1 = true)
    (h2 : headingFires pctx (segmentStep pctx false st e1).fontNames e2 = true) :
    (segmentStep pctx false (segmentStep pctx false st e1) e2).currentHeading
        = elemNormText e1 ++ elemNormText e2
    ∧ (headingFires pctx
          (segmentStep pctx false (segmentStep pctx false st e1) e2).fontNames e3 = true →
        (segmentStep pctx false (segmentStep pctx false (segmentStep pctx false st e1) e2)
            e3).currentHeading
          = elemNormText e2 ++ elemNormText e3) := by
  obtain ⟨hc1, hp1⟩ := segmentStep_heading pctx st e1 h1
  obtain ⟨hc2, hp2⟩ := segmentStep_heading pctx _ e2 h2
  refine ⟨by rw [hc2, hp1], fun h3 => ?_⟩
  obtain ⟨hc3, _⟩ := segmentStep_heading pctx _ e3 h3
  rw [hc3, hp2]

/-- C6 amended witness: two concrete Bold heading elements processed in
sequence from the initial state produce the concatenated heading label. -/
theorem claim_C6_amended_witness :
    (segmentStep ⟨100, 92, 8, []⟩ false
        (segmentStep ⟨100, 92, 8, []⟩ false initSegState headElemA) headElemB).currentHeading
      = elemNormText headElemA ++ elemNormText headElemB :=
  (claim_C6_amended ⟨100, 92, 8, []⟩ initSegState headElemA headElemB headElemA
    rfl (by decide) (by decide)).1

/-- A string of one hundred spaces. -/
def spaces100 : String := String.mk (List.replicate 100 ' ')

/-- Body element of one hundred space glyphs: passes the small-print filter,
fails the heading condition on its first conjunct, and adds one hundred
characters to the buffer. -/
def bodyElemW : Element := ⟨10, 80, 50, 55, true, spaces100, glyphRun "Regular" 10 spaces100⟩

/-- Document for the C6 counterexample: five hundred buffered characters, then
two consecutive heading elements. -/
def pageRun : Page :=
  ⟨100, 100, [bodyElemW, bodyElemW, bodyElemW, bodyElemW, bodyElemW, headElemA, headElemB]⟩


/-- C6 counterexample: in pageRun the elements headElemA and headElemB are
consecutive and both fire the heading branch (first two conjuncts), yet the
next chunk emitted after they appear is flushed while headElemB is being
processed (the buffer holds 510 characters, more than 500) and carries the
heading "Heading A " alone, not the concatenation "Heading A Part Two " the
claim requires; the concatenated label only appears on the chunk flushed
after the pair completes (here the end-of-document one). -/
theorem claim_C6_counterexample :
    headingFires (pageCtxOf 0 0 (docIndices [pageRun]) pageRun) ["Regular"] headElemA = true
    ∧ headingFires (pageCtxOf 0 0 (docIndices [pageRun]) pageRun) ["Regular", "TimesBold"]
        headElemB = true
    ∧ (extract_chunks .null ppTrivial 0 0 [pageRun]).toOption.map
        (fun r => r.1.map Chunk.heading)
      = some ["Heading A ", "Heading A Part Two "]
    ∧ (extract_chunks .null ppTrivial 0 0 [pageRun]).toOption.map
        (fun r => r.1.map (fun c => c.text.length))
      = some [510, 9]
    ∧ ("Heading A " : String) ≠ "Heading A " ++ "Part Two " := by
  refine ⟨by decide, by decide, by decide, by decide, by decide⟩

/-- Largest normalised element text length over a whole document. -/
def docMaxNorm (pages : List Page) : Nat :=
  ((pages.map (fun p => p.elements.map (fun e => (elemNormText e).length))).flatten).foldr max 0

/-- Every member of a list of naturals is at most its maximum. -/
theorem mem_le_foldr_max (l : List Nat) : ∀ x ∈ l, x ≤ l.foldr max 0 := by
  induction l with
  | nil => intro x hx; cases hx
  | cons a l ih =>
      intro x hx
      rcases List.mem_cons.mp hx with rfl | hx
      · exact le_max_left _ _
      · exact le_trans (ih x hx) (le_max_right _ _)

/-- The buffer-and-chunk length invariant of the segmentation pass: the buffer
and every emitted chunk hold at most 5000 + M characters. -/
def chunkLenBound (M : Nat) (st : SegState) : Prop :=
  st.textBuffer.length ≤ 5000 + M ∧ ∀ c ∈ st.chunks, c.text.length ≤ 5000 + M

/-- The page-number extraction never touches the buffer. -/
theorem footerStep_textBuffer (st : SegState) (r : Option (List (Option String))) :
    (footerStep st r).textBuffer = st.textBuffer := by
  cases r with
  | none => rfl
  | some gs =>
      simp only [footerStep]
      split
      · rfl
      · split <;> rfl

/-- One segmentation step preserves the length invariant: each of the three
flush checks (1400, 500, 5000) runs before the element text is appended, so
after the step the buffer holds at most 5000 + M characters and each flushed
chunk is a buffer that obeyed the invariant. -/
theorem segmentStep_bound (pctx : PageCtx) (m : Bool) (st : SegState) (e : Element) (M : Nat)
    (hM : (elemNormText e).length ≤ M) (hst : chunkLenBound M st) :
    chunkLenBound M (segmentStep pctx m st e) := by
  obtain ⟨hbuf, hchunks⟩ := hst
  have htext : normalizeTrailing
      (check_and_update_font_properties (initFontAcc st.fontNames) e.body).elementText
      = elemNormText e := by rw [elemNormText, elementText_walk_init]
  have hlen : (normalizeTrailing
      (check_and_update_font_properties (initFontAcc st.fontNames) e.body).elementText).length
      ≤ M := by rw [htext]; exact hM
  simp only [segmentStep, chunkLenBound]
  split
  · split
    · split
      · -- paragraph marker, flush
        refine ⟨by dsimp only; omega, ?_⟩
        intro c hc
        rcases List.mem_append.mp hc with h | h
        · exact hchunks c h
        · simp only [List.mem_singleton] at h
          subst h
          simpa [mkChunk] using hbuf
      · -- paragraph marker, no flush
        next hle =>
        refine ⟨?_, hchunks⟩
        simp only [String.length_append]
        omega
    · split
      · -- heading branch
        split
        · -- flush
          next hgt =>
          constructor
          · dsimp only
            simp only [String.length_append, String.length_empty]
            omega
          · intro c hc
            rcases List.mem_append.mp hc with h | h
            · exact hchunks c h
            · simp only [List.mem_singleton] at h
              subst h
              simpa [mkChunk] using hbuf
        · -- no flush: buffer was at most 500
          next hle =>
          refine ⟨?_, hchunks⟩
          simp only [String.length_append]
          omega
      · -- body branch
        split
        · -- forced flush: buffer was above 5000 but within the invariant
          next hgt =>
          constructor
          · dsimp only
            simp only [String.length_append, String.length_empty]
            omega
          · intro c hc
            rcases List.mem_append.mp hc with h | h
            · exact hchunks c h
            · simp only [List.mem_singleton] at h
              subst h
              simpa [mkChunk] using hbuf
        · -- no flush: buffer was at most 5000
          next hle =>
          refine ⟨?_, hchunks⟩
          simp only [String.length_append]
          omega
  · exact ⟨hbuf, hchunks⟩

/-- One element step preserves the length invariant. -/
theorem processElementE_bound (fp pp : ReArg) (pctx : PageCtx) (st : SegState) (e : Element)
    (st' : SegState) (M : Nat) (h : processElementE fp pp pctx st e = .ok st')
    (hM : (elemNormText e).length ≤ M) (hst : chunkLenBound M st) :
    chunkLenBound M st' := by
  simp only [processElementE] at h
  split at h
  · cases h; exact hst
  · split at h
    · split at h
      · split at h
        · exact absurd h (by simp)
        · exact absurd h (by simp)
        · cases h
          obtain ⟨hbuf, hchunks⟩ := hst
          constructor
          · rw [footerStep_textBuffer]; exact hbuf
          · rw [footerStep_chunks]; exact hchunks
      · cases h; exact hst
    · split at h
      · split at h
        · exact absurd h (by simp)
        · exact absurd h (by simp)
        · cases h; exact segmentStep_bound pctx _ st e M hM ⟨hst.1, hst.2⟩
      · cases h; exact segmentStep_bound pctx _ st e M hM ⟨hst.1, hst.2⟩

/-- The element loop preserves the length invariant. -/
theorem processElements_bound (fp pp : ReArg) (pctx : PageCtx) (M : Nat) :
    ∀ (es : List Element) (st st' : SegState),
      processElements fp pp pctx st es = .ok st' →
      (∀ e ∈ es, (elemNormText e).length ≤ M) →
      chunkLenBound M st → chunkLenBound M st' := by
  intro es
  induction es with
  | nil => intro st st' h _ hst; simp only [processElements] at h; cases h; exact hst
  | cons e es ih =>
      intro st st' h hM hst
      simp only [processElements] at h
      cases hpe : processElementE fp pp pctx st e with
      | error er => rw [hpe] at h; simp at h
      | ok st1 =>
          rw [hpe] at h
          exact ih st1 st' h (fun x hx => hM x (List.mem_cons_of_mem _ hx))
            (processElementE_bound fp pp pctx st e st1 M hpe
              (hM e (List.mem_cons_self _ _)) hst)

/-- The page loop preserves the length invariant. -/
theorem processPages_bound (fp pp : ReArg) (tm bm : ℚ) (indices : List ℤ) (M : Nat) :
    ∀ (ps : List Page) (st st' : SegState),
      processPages fp pp tm bm indices st ps = .ok st' →
      (∀ p ∈ ps, ∀ e ∈ p.elements, (elemNormText e).length ≤ M) →
      chunkLenBound M st → chunkLenBound M st' := by
  intro ps
  induction ps with
  | nil => intro st st' h _ hst; simp only [processPages] at h; cases h; exact hst
  | cons p ps ih =>
      intro st st' h hM hst
      simp only [processPages] at h
      cases hpe : processElements fp pp (pageCtxOf tm bm indices p) st p.elements with
      | error er => rw [hpe] at h; simp at h
      | ok st1 =>
          rw [hpe] at h
          exact ih st1 st' h (fun q hq => hM q (List.mem_cons_of_mem _ hq))
            (processElements_bound fp pp (pageCtxOf tm bm indices p) M p.elements st st1 hpe
              (hM p (List.mem_cons_self _ _)) hst)

/-- C5 amended: every emitted chunk's text holds at most 5000 characters plus
the length of one element's normalised text (the document maximum); the 1400
and 500 flush thresholds do not bound their own flushes this way (per the
counterexample a heading flush can emit far more than 500 plus one element),
the only universal bound being the unconditional 5000 check plus one element. -/
theorem claim_C5_amended (fp pp : ReArg) (tm bm : ℚ) (pages : List Page)
    (chunks : List Chunk) (names : List String)
    (h : extract_chunks fp pp tm bm pages = .ok (chunks, names)) :
    ∀ c ∈ chunks, c.text.length ≤ 5000 + docMaxNorm pages := by
  simp only [extract_chunks] at h
  cases hp : processPages fp pp tm bm (docIndices pages) initSegState pages with
  | error er => rw [hp] at h; simp at h
  | ok st =>
      rw [hp] at h
      simp only [Except.ok.injEq, Prod.mk.injEq] at h
      obtain ⟨hch, hnm⟩ := h
      have hbound : chunkLenBound (docMaxNorm pages) st := by
        refine processPages_bound fp pp tm bm (docIndices pages) (docMaxNorm pages)
          pages initSegState st hp ?_ ⟨by simp [initSegState], by simp [initSegState]⟩
        intro p hp2 e he
        apply mem_le_foldr_max
        exact List.mem_flatten.mpr
          ⟨p.elements.map (fun e => (elemNormText e).length),
            List.mem_map.mpr ⟨p, hp2, rfl⟩, List.mem_map.mpr ⟨e, he, rfl⟩⟩
      intro c hc
      rw [← hch] at hc
      rcases List.mem_append.mp hc with hmem | hmem
      · exact hbound.2 c hmem
      · simp only [List.mem_singleton] at hmem
        subst hmem
        simpa [mkChunk] using hbound.1

/-- C5 amended witness: the empty document yields a single empty chunk within
the bound. -/
theorem claim_C5_amended_witness :
    extract_chunks .null ppTrivial 0 0 [] = .ok ([⟨"", "", none, ""⟩], [])
    ∧ (⟨"", "", none, ""⟩ : Chunk).text.length ≤ 5000 + docMaxNorm [] :=
  ⟨by decide, claim_C5_amended .null ppTrivial 0 0 [] [⟨"", "", none, ""⟩] [] (by decide)
    ⟨"", "", none, ""⟩ (by simp)⟩

/-- Document for the C5 counterexample: seven hundred buffered characters
before a heading element arrives. -/
def pageC5 : Page :=
  ⟨100, 100, [bodyElemW, bodyElemW, bodyElemW, bodyElemW, bodyElemW, bodyElemW, bodyElemW,
              headElemA]⟩

/-- C5 counterexample: in pageC5 all element texts are at most 100 characters
(docMaxNorm is 100), the buffer reaches 700 characters through the body branch
(the 5000 check never fires) and is flushed by the heading element's 500 check:
the emitted chunk holds 700 characters, which exceeds the 500 threshold
applicable at that flush by 200 characters, twice one element's text, refuting
the claim that the buffer at a flush exceeds the applicable threshold by at
most one element's text.  The universal bound that does hold is 5000 plus one
element's normalised text. -/
theorem claim_C5_counterexample :
    (extract_chunks .null ppTrivial 0 0 [pageC5]).toOption.map
        (fun r => r.1.map (fun c => c.text.length))
      = some [700, 10]
    ∧ headingFires (pageCtxOf 0 0 (docIndices [pageC5]) pageC5) ["Regular"] headElemA = true
    ∧ docMaxNorm [pageC5] = 100
    ∧ 700 > 500 + docMaxNorm [pageC5] := by
  refine ⟨by decide, by decide, by decide, by decide⟩

instance : IsTrans (Nat × Nat) argsortLe :=
  ⟨by intro a b c hab hbc; unfold argsortLe at *; omega⟩

instance : IsTotal (Nat × Nat) argsortLe :=
  ⟨by intro a b; unfold argsortLe; omega⟩

/-- C8 amended: top_X_bins selects eight buckets every one of which dominates
every unselected bucket in the lexicographic (count, index) order: an
unselected bucket has a strictly smaller count, or an equal count and a
strictly smaller index.  Under the stable model of np.argsort a tie at the
selection boundary is therefore broken towards the HIGHER bucket index, not
the lower one as the claim states (the source's unstable default quicksort
leaves the tie order unspecified). -/
theorem claim_C8_amended (hist : List Nat) (i j : Nat)
    (hi : i ∈ top_X_bins hist) (hj : j < hist.length) (hnj : j ∉ top_X_bins hist) :
    hist.getD j 0 < hist.getD i 0 ∨ (hist.getD j 0 = hist.getD i 0 ∧ j < i) := by
  have hsorted : List.Sorted argsortLe (List.insertionSort argsortLe hist.enum) :=
    List.sorted_insertionSort argsortLe hist.enum
  have hperm := List.perm_insertionSort argsortLe hist.enum
  have htop : top_X_bins hist
      = ((List.insertionSort argsortLe hist.enum).drop (hist.length - 8)).map Prod.fst := by
    simp only [top_X_bins, argsortStable]
    exact (List.map_drop Prod.fst (List.insertionSort argsortLe hist.enum) (hist.length - 8)).symm
  obtain ⟨pi, hpiDrop, hpi1⟩ := List.mem_map.mp (htop ▸ hi)
  have hpiS : pi ∈ List.insertionSort argsortLe hist.enum := List.mem_of_mem_drop hpiDrop
  have hpiEnum : pi ∈ hist.enum := hperm.mem_iff.mp hpiS
  have hpi2 : hist.getD pi.1 0 = pi.2 := by
    have h2 := List.mem_enum_iff_getElem?.mp hpiEnum
    simp [List.getD_eq_getElem?_getD, h2]
  have hjpair : (j, hist.getD j 0) ∈ hist.enum := by
    apply List.mk_mem_enum_iff_getElem?.mpr
    simp [List.getElem?_eq_getElem hj, List.getD_eq_getElem?_getD]
  have hjS : (j, hist.getD j 0) ∈ List.insertionSort argsortLe hist.enum :=
    hperm.mem_iff.mpr hjpair
  rcases List.mem_append.mp
      ((List.take_append_drop (hist.length - 8)
        (List.insertionSort argsortLe hist.enum)).symm ▸ hjS) with hTake | hDrop
  · have hpw : List.Pairwise argsortLe
        ((List.insertionSort argsortLe hist.enum).take (hist.length - 8)
          ++ (List.insertionSort argsortLe hist.enum).drop (hist.length - 8)) := by
      rw [List.take_append_drop]
      exact hsorted
    have hrel := (List.pairwise_append.mp hpw).2.2 _ hTake _ hpiDrop
    have hne : j ≠ i := fun heqj => hnj (heqj ▸ hi)
    unfold argsortLe at hrel
    rcases hrel with hlt | ⟨heq, hle⟩
    · left
      rw [hpi1] at hpi2
      rw [hpi2]
      exact hlt
    · right
      rw [hpi1] at hpi2 hle
      exact ⟨by rw [hpi2]; exact heq, by omega⟩
  · exact absurd (htop ▸ List.mem_map.mpr ⟨_, hDrop, rfl⟩) hnj

/-- C8 counterexample: on the all-zero histogram of 901 buckets (every count
tied) the retained buckets are 893 to 900, the highest indices; bucket 0,
which has the same count as bucket 900, is not selected, refuting the claimed
tie-break towards the lower index. -/
theorem claim_C8_counterexample :
    top_X_bins (List.replicate 901 0) = [893, 894, 895, 896, 897, 898, 899, 900]
    ∧ (0 : Nat) ∉ top_X_bins (List.replicate 901 0)
    ∧ (List.replicate 901 0).getD 0 0 = (List.replicate 901 0).getD 900 0 := by
  have hsorted : List.Sorted argsortLe ((List.replicate 901 (0 : Nat)).enum) := by
    apply List.pairwise_iff_getElem.mpr
    intro a b ha hb hab
    rw [List.getElem_enum, List.getElem_enum, List.getElem_replicate, List.getElem_replicate]
    exact Or.inr ⟨rfl, by omega⟩
  have heq : List.insertionSort argsortLe ((List.replicate 901 (0 : Nat)).enum)
      = (List.replicate 901 (0 : Nat)).enum := hsorted.insertionSort_eq
  have htop : top_X_bins (List.replicate 901 0) = (List.range 901).drop 893 := by
    simp only [top_X_bins, argsortStable, heq, List.enum_map_fst, List.length_replicate]
  have hlist : (List.range 901).drop 893 = [893, 894, 895, 896, 897, 898, 899, 900] := by
    rw [show (901 : Nat) = 893 + 8 from rfl, List.range_add,
      List.drop_left' (List.length_range 893)]
    decide
  refine ⟨htop.trans hlist, ?_, ?_⟩
  · rw [htop, hlist]
    decide
  · simp [List.getD_eq_getElem?_getD, List.getElem?_replicate]

/-- C8 amended witness: on a nine-bucket all-zero histogram, bucket 8 is
selected, bucket 0 is not, and the dominance disjunction holds for the pair. -/
theorem claim_C8_amended_witness :
    (8 ∈ top_X_bins (List.replicate 9 0))
    ∧ (0 < (List.replicate 9 0).length)
    ∧ (0 ∉ top_X_bins (List.replicate 9 0))
    ∧ ((List.replicate 9 0).getD 0 0 < (List.replicate 9 0).getD 8 0
        ∨ ((List.replicate 9 0).getD 0 0 = (List.replicate 9 0).getD 8 0 ∧ 0 < 8)) :=
  ⟨by decide, by decide, by decide,
    claim_C8_amended (List.replicate 9 0) 8 0 (by decide) (by decide) (by decide)⟩

/-- Correctness of the two-character split: the input is the prefix, the mark,
and the remainder. -/
theorem splitOnce2_eq (c1 c2 : Char) :
    ∀ (l p s : List Char), splitOnce2 c1 c2 l = some (p, s) → l = p ++ c1 :: c2 :: s := by
  intro l
  induction l with
  | nil => intro p s h; simp [splitOnce2] at h
  | cons a rest ih =>
      cases rest with
      | nil => intro p s h; simp [splitOnce2] at h
      | cons b rest2 =>
          intro p s h
          simp only [splitOnce2] at h
          split at h
          · next hcond =>
              cases h
              simp [hcond.1, hcond.2]
          · cases hs : splitOnce2 c1 c2 (b :: rest2) with
            | none => rw [hs] at h; simp at h
            | some pr =>
                rw [hs] at h
                simp only [Option.map_some'] at h
                cases h
                have hrec := ih pr.1 pr.2 (by rw [hs])
                simp [hrec]

/-- Realignment of the tail runs preserves the concatenated text. -/
theorem realignAux_flatten : ∀ (rs : List (List Char)) (prev : List Char),
    (realignAux prev rs).flatten = prev ++ rs.flatten := by
  intro rs
  induction rs with
  | nil => intro prev; simp [realignAux]
  | cons r rs ih =>
      intro prev
      simp only [realignAux]
      split
      · cases hs : splitOnce2 '<' '<' r with
        | none => simp [ih]
        | some pr =>
            have hr := splitOnce2_eq '<' '<' r pr.1 pr.2 hs
            simp [ih, hr]
      · simp [ih]

/-- Realignment of the tail runs preserves the run count. -/
theorem realignAux_length : ∀ (rs : List (List Char)) (prev : List Char),
    (realignAux prev rs).length = rs.length + 1 := by
  intro rs
  induction rs with
  | nil => intro prev; simp [realignAux]
  | cons r rs ih =>
      intro prev
      simp only [realignAux]
      split
      · cases hs : splitOnce2 '<' '<' r with
        | none => simp [ih]
        | some pr => simp [ih]
      · simp [ih]

/-- realign_field_codes preserves the paragraph's concatenated text. -/
theorem realign_field_codes_flatten (runs : List (List Char)) :
    (realign_field_codes runs).flatten = runs.flatten := by
  cases runs with
  | nil => rfl
  | cons r rs => simpa [realign_field_codes] using realignAux_flatten rs r

/-- realign_field_codes preserves the run count. -/
theorem realign_field_codes_length (runs : List (List Char)) :
    (realign_field_codes runs).length = runs.length := by
  cases runs with
  | nil => rfl
  | cons r rs => simpa [realign_field_codes] using realignAux_length rs r

/-- The consolidation preserves text: the final opener, the cleared runs, the
closing remainder and the tail concatenate to the opener and the consumed
runs. -/
theorem preprocConsume_flatten (opener : List Char) :
    ∀ (rest : List (List Char)) out, preprocConsume opener rest = some out →
      out.1 ++ out.2.1.flatten ++ out.2.2.1 ++ out.2.2.2.flatten = opener ++ rest.flatten := by
  intro rest
  induction rest generalizing opener with
  | nil => intro out h; simp [preprocConsume] at h
  | cons r rs ih =>
      intro out h
      simp only [preprocConsume] at h
      cases hs : splitOnce2 '>' '>' r with
      | some pr =>
          rw [hs] at h
          cases h
          have hr := splitOnce2_eq '>' '>' r pr.1 pr.2 hs
          simp [hr, List.append_assoc]
      | none =>
          rw [hs] at h
          cases hc : preprocConsume (opener ++ r) rs with
          | none => rw [hc] at h; simp at h
          | some out' =>
              rw [hc] at h
              cases h
              have hrec := ih (opener ++ r) out' hc
              simpa [List.append_assoc] using hrec

/-- preprocess_field_codes, when it completes, preserves the paragraph's
concatenated text and its run count. -/
theorem preprocess_spec : ∀ (n : Nat) (runs : List (List Char)), runs.length ≤ n →
    ∀ out, preprocess_field_codes runs = some out →
      out.flatten = runs.flatten ∧ out.length = runs.length := by
  intro n
  induction n with
  | zero =>
      intro runs hlen out h
      rcases runs with _ | ⟨r, rest⟩
      · simp only [preprocess_field_codes] at h; cases h; exact ⟨rfl, rfl⟩
      · simp at hlen
  | succ n ih =>
      intro runs hlen out h
      rcases runs with _ | ⟨r, rest1⟩
      · simp only [preprocess_field_codes] at h; cases h; exact ⟨rfl, rfl⟩
      rcases rest1 with _ | ⟨r2, rest⟩
      · simp only [preprocess_field_codes] at h; cases h; exact ⟨rfl, rfl⟩
      simp only [preprocess_field_codes] at h
      split at h
      · split at h
        · exact absurd h (by simp)
        · next out0 hc =>
            cases hp : preprocess_field_codes (out0.2.2.1 :: out0.2.2.2) with
            | none => rw [hp] at h; simp at h
            | some done =>
                rw [hp] at h
                simp only [Option.map_some'] at h
                cases h
                have hlen2 := preprocConsume_length r (r2 :: rest) out0 hc
                have hflat := preprocConsume_flatten r (r2 :: rest) out0 hc
                have hrec := ih (out0.2.2.1 :: out0.2.2.2)
                  (by simp only [List.length_cons] at hlen hlen2 ⊢; omega) done hp
                constructor
                · simp only [List.flatten_cons, List.flatten_append] at *
                  rw [hrec.1]
                  simpa [List.append_assoc] using hflat
                · simp only [List.length_cons, List.length_append] at *
                  omega
      · cases hp : preprocess_field_codes (r2 :: rest) with
        | none => rw [hp] at h; simp at h
        | some done =>
            rw [hp] at h
            simp only [Option.map_some'] at h
            cases h
            have hrec := ih (r2 :: rest)
              (by simp only [List.length_cons] at hlen ⊢; omega) done hp
            exact ⟨by simp [hrec.1], by simp [hrec.2]⟩

/-- C9 counterexample: a paragraph whose first run holds an opening mark that
is never closed makes preprocess_field_codes walk past the last run, modelled
as none (the source raises IndexError at para.runs[i]); the combined
preprocessing therefore does not complete, let alone preserve the text. -/
theorem claim_C9_counterexample :
    preprocess_field_codes [("<<a").data, ("b").data] = none := by
  simp [preprocess_field_codes, preprocConsume, containsMark, splitOnce2]

/-- C9 amended: whenever preprocess_field_codes completes (no unclosed opening
mark), running it and then realign_field_codes preserves the paragraph's
concatenated run text and its run count: text only moves between existing runs
of the same paragraph and no run is added or removed. -/
theorem claim_C9_amended (runs out : List (List Char))
    (h : preprocess_field_codes runs = some out) :
    (realign_field_codes out).flatten = runs.flatten
    ∧ (realign_field_codes out).length = runs.length := by
  obtain ⟨h1, h2⟩ := preprocess_spec runs.length runs (le_refl _) out h
  exact ⟨by rw [realign_field_codes_flatten, h1],
         by rw [realign_field_codes_length, h2]⟩

/-- C9 amended witness: a field code split over two runs is consolidated and
realigned with text and run count preserved. -/
theorem claim_C9_amended_witness :
    preprocess_field_codes [("<<a").data, ("b>>c").data, ("d").data]
      = some [("<<ab>>").data, ("c").data, ("d").data]
    ∧ (realign_field_codes [("<<ab>>").data, ("c").data, ("d").data]).flatten
      = ([("<<a").data, ("b>>c").data, ("d").data] : List (List Char)).flatten
    ∧ (realign_field_codes [("<<ab>>").data, ("c").data, ("d").data]).length = 3 := by
  have hpre : preprocess_field_codes [("<<a").data, ("b>>c").data, ("d").data]
      = some [("<<ab>>").data, ("c").data, ("d").data] := by
    simp [preprocess_field_codes, preprocConsume, containsMark, splitOnce2]
  refine ⟨hpre, (claim_C9_amended _ _ hpre).1, ?_⟩
  simpa using (claim_C9_amended [("<<a").data, ("b>>c").data, ("d").data]
    [("<<ab>>").data, ("c").data, ("d").data] hpre).2
